import Mathlib

/-!
Verification of the stock dashboard's statistics calculator, date-range
presets, per-symbol rendering loop and data-export path, shallowly embedded
from `src/stock_dashboard.py`.  Prices and volumes are modelled as exact
rationals; a fetched price series is a list of daily bars; the absent value
`None` of the Python code is `Option.none`.
-/

namespace StockDashboard

/-- One daily price bar, one row of the yfinance history DataFrame.
Field names follow the DataFrame column names; `date` is the row index. -/
structure PriceBar where
  date : Nat
  Open : ℚ
  High : ℚ
  Low : ℚ
  Close : ℚ
  Volume : ℚ
deriving DecidableEq

/-- The dictionary returned by `calculate_statistics` (lines 104-112). -/
structure Stats where
  currentPrice : ℚ
  openingPrice : ℚ
  high : ℚ
  low : ℚ
  priceChange : ℚ
  percentageChange : ℚ
  averageVolume : ℚ
deriving DecidableEq

/-- `series.iloc[-1]` on a column of a non-empty DataFrame. -/
def colLast : List ℚ → ℚ
  | [] => 0
  | [x] => x
  | _ :: y :: t => colLast (y :: t)

/-- `series.iloc[0]` on a column of a non-empty DataFrame. -/
def colFirst : List ℚ → ℚ
  | [] => 0
  | x :: _ => x

/-- `series.max()` on a column of a non-empty DataFrame. -/
def colMax : List ℚ → ℚ
  | [] => 0
  | [x] => x
  | x :: y :: t => max x (colMax (y :: t))

/-- `series.min()` on a column of a non-empty DataFrame. -/
def colMin : List ℚ → ℚ
  | [] => 0
  | [x] => x
  | x :: y :: t => min x (colMin (y :: t))

/-- `series.mean()`: arithmetic mean of a column. -/
def colMean (xs : List ℚ) : ℚ := xs.sum / (xs.length : ℚ)

/-- `calculate_statistics` (lines 80-113).  Returns `none` when the input is
`None` or the DataFrame is empty (lines 88-89); otherwise computes the seven
statistics column-wise exactly as the pandas expressions do.  The percentage
change is computed unconditionally by line 101; there is no zero-baseline
check anywhere in the function. -/
def calculate_statistics (data : Option (List PriceBar)) : Option Stats :=
  match data with
  | none => none
  | some s =>
    if s.isEmpty then none
    else
      let current_price := colLast (s.map PriceBar.Close)
      let previous_price := colFirst (s.map PriceBar.Close)
      let price_change := current_price - previous_price
      let percentage_change := (price_change / previous_price) * 100
      some {
        currentPrice := current_price
        openingPrice := previous_price
        high := colMax (s.map PriceBar.High)
        low := colMin (s.map PriceBar.Low)
        priceChange := price_change
        percentageChange := percentage_change
        averageVolume := colMean (s.map PriceBar.Volume) }

/-- The non-Custom branch of the date-range selection (lines 40-51):
`end_date = datetime.now()` and `start_date` is `end_date` minus the
preset's day count, the trailing `else` covering "1 Year".  Time is
modelled as days since an epoch. -/
def preset_range (date_range : String) (now : Int) : Int × Int :=
  if date_range = "1 Week" then (now - 14, now)
  else if date_range = "1 Month" then (now - 35, now)
  else if date_range = "3 Months" then (now - 95, now)
  else if date_range = "6 Months" then (now - 185, now)
  else (now - 370, now)

/-- What one symbol's tab displays.  `metrics` stands for the full rendered
panel (lines 137-260); `noDataError` is the `st.error` fallback (line 262),
which `get_stock_data` returning `None` (failure or empty fetch) leads to. -/
inductive Panel where
  | metrics (stats : Stats) : Panel
  | noDataError (symbol : String) : Panel
deriving DecidableEq

/-- The body of one iteration of the per-symbol loop (lines 123-262): fetch,
then either render the statistics panel (`if data is not None and not
data.empty`, line 131) or show the per-symbol error message. -/
def render_symbol_tab (symbol : String) (fetched : Option (List PriceBar)) : Panel :=
  match fetched with
  | none => Panel.noDataError symbol
  | some data =>
    if data.isEmpty then Panel.noDataError symbol
    else
      match calculate_statistics (some data) with
      | some stats => Panel.metrics stats
      | none => Panel.noDataError symbol

/-- The whole per-symbol tab loop: one independent panel per selected
symbol, in selection order. -/
def render_tabs (fetch : String → Option (List PriceBar)) (symbols : List String) : List Panel :=
  symbols.map (fun s => render_symbol_tab s (fetch s))

/-- The `all_data` dictionary accumulated by the loop (lines 121, 131-132):
a symbol is recorded exactly when its fetch returned a non-`None`,
non-empty DataFrame. -/
def all_data (fetch : String → Option (List PriceBar)) (symbols : List String) :
    List (String × List PriceBar) :=
  symbols.filterMap (fun s =>
    match fetch s with
    | none => none
    | some d => if d.isEmpty then none else some (s, d))

/-- The `if all_data:` guard (line 268): the export controls are shown only
when the dictionary is non-empty. -/
def export_offered (fetch : String → Option (List PriceBar)) (symbols : List String) : Bool :=
  !(all_data fetch symbols).isEmpty

/-- The rows of `combined_data` (lines 274-278): for each stored symbol, its
bars with the symbol attached as an extra column, concatenated in order. -/
def combined_rows (ad : List (String × List PriceBar)) : List (String × PriceBar) :=
  (ad.map (fun p => p.2.map (fun b => (p.1, b)))).flatten

/-!
### The delimited export format

`combined_data.to_csv(index=True)` and the re-parsing of its output are
pandas library code, not part of this repository, so the scalar formatting
is modelled from the spec while the row and column structure (Date index,
OHLCV columns, appended Symbol column, one line per bar, comma and newline
separators) follows the source.
-/

/-- The character of a decimal digit. -/
def digitChar (d : Nat) : Char := Char.ofNat (48 + d)

/-- Modelled from the spec: the delimited rendering of a natural number as
its decimal digit characters (pandas' `to_csv` scalar formatting is library
code absent from the repository). -/
def renderNat (n : Nat) : List Char :=
  if n = 0 then ['0'] else ((Nat.digits 10 n).reverse.map digitChar)

/-- Modelled from the spec: parsing a decimal digit string back to a
natural number. -/
def parseNatChars (cs : List Char) : Nat :=
  Nat.ofDigits 10 ((cs.map (fun c => c.toNat - 48)).reverse)

/-- Modelled from the spec: rendering of an integer, a minus sign followed
by the decimal digits when negative. -/
def renderInt (i : Int) : List Char :=
  if i < 0 then '-' :: renderNat i.natAbs else renderNat i.natAbs

/-- Modelled from the spec: parsing an optionally-signed decimal string. -/
def parseIntChars (cs : List Char) : Int :=
  match cs with
  | [] => 0
  | c :: rest => if c = '-' then -(parseNatChars rest : Int) else (parseNatChars (c :: rest) : Int)

/-- Modelled from the spec: an exact (within formatting precision) rendering
of a rational cell value as numerator, slash, denominator. -/
def renderRat (q : ℚ) : List Char := renderInt q.num ++ '/' :: renderNat q.den

/-- Modelled from the spec: parsing a rational cell value. -/
def parseRatChars (cs : List Char) : Option ℚ :=
  match cs.splitOn '/' with
  | [numCs, denCs] => some ((parseIntChars numCs : ℚ) / (parseNatChars denCs : ℚ))
  | _ => none

/-- The header line written by `to_csv(index=True)`: the Date index, the
OHLCV columns and the appended Symbol column. -/
def csvHeader : List (List Char) :=
  [['D','a','t','e'], ['O','p','e','n'], ['H','i','g','h'], ['L','o','w'],
   ['C','l','o','s','e'], ['V','o','l','u','m','e'], ['S','y','m','b','o','l']]

/-- One CSV data row: the bar's index and fields followed by the symbol. -/
def barCells (symbol : String) (b : PriceBar) : List (List Char) :=
  [renderNat b.date, renderRat b.Open, renderRat b.High, renderRat b.Low,
   renderRat b.Close, renderRat b.Volume, symbol.data]

/-- `combined_data.to_csv(index=True)` (line 280): header line then one line
per bar of every stored symbol, cells comma-separated, lines
newline-separated. -/
def to_csv (ad : List (String × List PriceBar)) : List Char :=
  List.intercalate ['\n']
    ((csvHeader :: (combined_rows ad).map (fun p => barCells p.1 p.2)).map
      (List.intercalate [',']))

/-- Modelled from the spec: parsing one data row back into a symbol and a
bar; fails unless the row has exactly the seven expected cells. -/
def parseRow (cells : List (List Char)) : Option (String × PriceBar) :=
  match cells with
  | [dateCs, openCs, highCs, lowCs, closeCs, volCs, symCs] =>
    match parseRatChars openCs, parseRatChars highCs, parseRatChars lowCs,
        parseRatChars closeCs, parseRatChars volCs with
    | some o, some h, some l, some c, some v =>
      some (String.mk symCs,
        { date := parseNatChars dateCs, Open := o, High := h, Low := l,
          Close := c, Volume := v })
    | _, _, _, _, _ => none
  | _ => none

/-- Modelled from the spec: parsing every data row. -/
def parseRows : List (List (List Char)) → Option (List (String × PriceBar))
  | [] => some []
  | r :: rs =>
    match parseRow r, parseRows rs with
    | some p, some ps => some (p :: ps)
    | _, _ => none

/-- Modelled from the spec: re-parsing the exported delimited text — split
into lines, drop the header line, split each remaining line on commas, and
read each row back. -/
def from_csv (cs : List Char) : Option (List (String × PriceBar)) :=
  match cs.splitOn '\n' with
  | [] => none
  | _header :: dataLines => parseRows (dataLines.map (fun line => line.splitOn ','))

/-! ### Column-reduction lemmas -/

theorem colLast_eq_getLast? (xs : List ℚ) (h : xs ≠ []) : some (colLast xs) = xs.getLast? := by
  induction xs with
  | nil => exact absurd rfl h
  | cons x t ih =>
    cases t with
    | nil => simp [colLast]
    | cons y t' =>
      rw [colLast, List.getLast?_cons_cons]
      exact ih (by simp)

theorem le_colMax (xs : List ℚ) (x : ℚ) (hx : x ∈ xs) : x ≤ colMax xs := by
  induction xs with
  | nil => simp at hx
  | cons a t ih =>
    cases t with
    | nil =>
      rw [List.mem_singleton] at hx
      simp [colMax, hx]
    | cons b t' =>
      rw [colMax]
      rcases List.mem_cons.mp hx with h | h
      · exact h ▸ le_max_left _ _
      · exact le_trans (ih h) (le_max_right _ _)

theorem colMax_mem (xs : List ℚ) (h : xs ≠ []) : colMax xs ∈ xs := by
  induction xs with
  | nil => exact absurd rfl h
  | cons a t ih =>
    cases t with
    | nil => simp [colMax]
    | cons b t' =>
      rw [colMax]
      rcases max_choice a (colMax (b :: t')) with hm | hm
      · simp [hm]
      · rw [hm]
        exact List.mem_cons_of_mem a (ih (by simp))

theorem colMin_le (xs : List ℚ) (x : ℚ) (hx : x ∈ xs) : colMin xs ≤ x := by
  induction xs with
  | nil => simp at hx
  | cons a t ih =>
    cases t with
    | nil =>
      rw [List.mem_singleton] at hx
      simp [colMin, hx]
    | cons b t' =>
      rw [colMin]
      rcases List.mem_cons.mp hx with h | h
      · exact h ▸ min_le_left _ _
      · exact le_trans (min_le_right _ _) (ih h)

theorem colMin_mem (xs : List ℚ) (h : xs ≠ []) : colMin xs ∈ xs := by
  induction xs with
  | nil => exact absurd rfl h
  | cons a t ih =>
    cases t with
    | nil => simp [colMin]
    | cons b t' =>
      rw [colMin]
      rcases min_choice a (colMin (b :: t')) with hm | hm
      · simp [hm]
      · rw [hm]
        exact List.mem_cons_of_mem a (ih (by simp))

/-- Unfolding of `calculate_statistics` on a non-empty series. -/
theorem calculate_statistics_cons (b : PriceBar) (bs : List PriceBar) :
    calculate_statistics (some (b :: bs)) =
      some { currentPrice := colLast ((b :: bs).map PriceBar.Close)
             openingPrice := colFirst ((b :: bs).map PriceBar.Close)
             high := colMax ((b :: bs).map PriceBar.High)
             low := colMin ((b :: bs).map PriceBar.Low)
             priceChange := colLast ((b :: bs).map PriceBar.Close) -
               colFirst ((b :: bs).map PriceBar.Close)
             percentageChange := ((colLast ((b :: bs).map PriceBar.Close) -
               colFirst ((b :: bs).map PriceBar.Close)) /
               colFirst ((b :: bs).map PriceBar.Close)) * 100
             averageVolume := colMean ((b :: bs).map PriceBar.Volume) } := rfl

/-- Shared shape lemma: on any non-empty series the function succeeds and its
current and opening prices are the closes of the positionally last and first
rows. -/
theorem stats_shape_of_ne_nil (s : List PriceBar) (h : s ≠ []) :
    ∃ st, calculate_statistics (some s) = some st ∧
      some st.currentPrice = s.getLast?.map PriceBar.Close ∧
      some st.openingPrice = s.head?.map PriceBar.Close := by
  match s with
  | b :: bs =>
    refine ⟨_, calculate_statistics_cons b bs, ?_, ?_⟩
    · rw [← List.getLast?_map]
      exact colLast_eq_getLast? _ (by simp)
    · simp [colFirst]

/-! ### Sample data (the worked scenario of the spec, section 8) -/

def bar1 : PriceBar := { date := 0, Open := 100, High := 105, Low := 95, Close := 100, Volume := 1000 }

def bar2 : PriceBar := { date := 1, Open := 101, High := 112, Low := 99, Close := 110, Volume := 2000 }

def statsW : Stats :=
  { currentPrice := 110, openingPrice := 100, high := 112, low := 95,
    priceChange := 10, percentageChange := 10, averageVolume := 1500 }

theorem sample_eval : calculate_statistics (some [bar1, bar2]) = some statsW := by
  rw [calculate_statistics_cons]
  norm_num [bar1, bar2, statsW, colLast, colFirst, colMax, colMin, colMean]

/-- Claim C5: for a `None` input and for an empty series input,
`calculate_statistics` returns the explicit no-data signal `none` — not a
crash and not a zero-filled statistics record. -/
theorem no_data_signal :
    calculate_statistics none = none ∧ calculate_statistics (some []) = none :=
  ⟨rfl, rfl⟩

/-- Claim C2: on a non-empty date-ascending series, `currentPrice` is the
Close of the last bar and `openingPrice` is the Close (not the Open) of the
first bar. -/
theorem current_and_opening_price (s : List PriceBar) (h : s ≠ [])
    (_hasc : s.Chain' (fun a b => a.date ≤ b.date)) :
    ∃ st, calculate_statistics (some s) = some st ∧
      some st.currentPrice = s.getLast?.map PriceBar.Close ∧
      some st.openingPrice = s.head?.map PriceBar.Close :=
  stats_shape_of_ne_nil s h

/-- Witness for C2 at the spec's two-bar scenario. -/
theorem current_and_opening_price_witness :
    ([bar1, bar2] : List PriceBar) ≠ [] ∧
    ([bar1, bar2] : List PriceBar).Chain' (fun a b => a.date ≤ b.date) ∧
    ∃ st, calculate_statistics (some [bar1, bar2]) = some st ∧
      some st.currentPrice = ([bar1, bar2] : List PriceBar).getLast?.map PriceBar.Close ∧
      some st.openingPrice = ([bar1, bar2] : List PriceBar).head?.map PriceBar.Close :=
  ⟨by simp, by simp [bar1, bar2],
    current_and_opening_price [bar1, bar2] (by simp) (by simp [bar1, bar2])⟩

/-- Claim C3: the returned price change is exactly current price minus
opening price; the subtraction is exact, no rounding precedes it. -/
theorem price_change_exact (data : Option (List PriceBar)) (st : Stats)
    (h : calculate_statistics data = some st) :
    st.priceChange = st.currentPrice - st.openingPrice := by
  match data with
  | none => exact absurd h (by simp [calculate_statistics])
  | some [] => exact absurd h (by simp [calculate_statistics])
  | some (b :: bs) =>
    rw [calculate_statistics_cons] at h
    injection h with h
    rw [← h]

/-- Witness for C3 at the spec's two-bar scenario. -/
theorem price_change_exact_witness :
    calculate_statistics (some [bar1, bar2]) = some statsW ∧
    statsW.priceChange = statsW.currentPrice - statsW.openingPrice :=
  ⟨sample_eval, price_change_exact (some [bar1, bar2]) statsW sample_eval⟩

/-- Claim C4: the returned high is the maximum of the bars' highs, the low
is the minimum of the bars' lows, and the average volume is the arithmetic
mean of the bars' volumes. -/
theorem high_low_average (s : List PriceBar) (st : Stats)
    (h : calculate_statistics (some s) = some st) :
    (∀ b ∈ s, b.High ≤ st.high) ∧ (∃ b ∈ s, st.high = b.High) ∧
    (∀ b ∈ s, st.low ≤ b.Low) ∧ (∃ b ∈ s, st.low = b.Low) ∧
    st.averageVolume = (s.map PriceBar.Volume).sum / (s.length : ℚ) := by
  match s with
  | [] => exact absurd h (by simp [calculate_statistics])
  | b :: bs =>
    rw [calculate_statistics_cons] at h
    injection h with h
    subst h
    refine ⟨?_, ?_, ?_, ?_, ?_⟩
    · intro x hx
      exact le_colMax _ _ (List.mem_map_of_mem _ hx)
    · have hmem := colMax_mem ((b :: bs).map PriceBar.High) (by simp)
      rcases List.mem_map.mp hmem with ⟨x, hx, hxe⟩
      exact ⟨x, hx, hxe.symm⟩
    · intro x hx
      exact colMin_le _ _ (List.mem_map_of_mem _ hx)
    · have hmem := colMin_mem ((b :: bs).map PriceBar.Low) (by simp)
      rcases List.mem_map.mp hmem with ⟨x, hx, hxe⟩
      exact ⟨x, hx, hxe.symm⟩
    · simp [colMean]

/-- Witness for C4 at the spec's two-bar scenario. -/
theorem high_low_average_witness :
    calculate_statistics (some [bar1, bar2]) = some statsW ∧
    ((∀ b ∈ [bar1, bar2], b.High ≤ statsW.high) ∧
      (∃ b ∈ [bar1, bar2], statsW.high = b.High) ∧
      (∀ b ∈ [bar1, bar2], statsW.low ≤ b.Low) ∧
      (∃ b ∈ [bar1, bar2], statsW.low = b.Low) ∧
      statsW.averageVolume =
        (([bar1, bar2] : List PriceBar).map PriceBar.Volume).sum /
          ((([bar1, bar2] : List PriceBar).length : ℚ))) :=
  ⟨sample_eval, high_low_average [bar1, bar2] statsW sample_eval⟩

/-- The all-zero one-bar series: its opening price (the first bar's close)
is zero. -/
def zeroBar : PriceBar := { date := 0, Open := 0, High := 0, Low := 0, Close := 0, Volume := 0 }

/-- The numeric record `calculate_statistics` produces on `[zeroBar]`. -/
def zeroStats : Stats :=
  { currentPrice := 0, openingPrice := 0, high := 0, low := 0,
    priceChange := 0, percentageChange := 0, averageVolume := 0 }

/-- Claim C1, counterexample: on a series whose opening price is zero the
function returns an ordinary numeric statistics record (`some zeroStats`) —
the only non-numeric signal in the code is `none`, and no `InvalidBaseline`
condition exists; line 101 divides unconditionally. -/
theorem zero_baseline_returns_numeric :
    calculate_statistics (some [zeroBar]) = some zeroStats := by
  rw [calculate_statistics_cons]
  norm_num [zeroBar, zeroStats, colLast, colFirst, colMax, colMin, colMean]

/-- Claim C1 as amended: the percentage change is always computed by the
unchecked formula `(priceChange / openingPrice) * 100` (so it equals that
expression whenever the opening price is non-zero), and on every non-empty
series — zero baseline included — the function returns a numeric result
rather than signalling an error. -/
theorem percentage_change_unchecked :
    (∀ (data : Option (List PriceBar)) (st : Stats), calculate_statistics data = some st →
      st.percentageChange = st.priceChange / st.openingPrice * 100) ∧
    (∀ s : List PriceBar, s ≠ [] → (calculate_statistics (some s)).isSome = true) := by
  constructor
  · intro data st h
    match data with
    | none => exact absurd h (by simp [calculate_statistics])
    | some [] => exact absurd h (by simp [calculate_statistics])
    | some (b :: bs) =>
      rw [calculate_statistics_cons] at h
      injection h with h
      rw [← h]
  · intro s h
    match s with
    | b :: bs => rw [calculate_statistics_cons]; rfl

/-- Witness for the amended C1: the formula at the spec's two-bar scenario,
and a numeric (non-error) result on the zero-baseline series. -/
theorem percentage_change_unchecked_witness :
    (calculate_statistics (some [bar1, bar2]) = some statsW ∧
      statsW.percentageChange = statsW.priceChange / statsW.openingPrice * 100) ∧
    ([zeroBar] : List PriceBar) ≠ [] ∧
    (calculate_statistics (some [zeroBar])).isSome = true :=
  ⟨⟨sample_eval, percentage_change_unchecked.1 (some [bar1, bar2]) statsW sample_eval⟩,
    by simp, percentage_change_unchecked.2 [zeroBar] (by simp)⟩

/-- A bar with its date erased: the only part of a row that
`calculate_statistics` ever reads. -/
def stripDate (b : PriceBar) : ℚ × ℚ × ℚ × ℚ × ℚ :=
  (b.Open, b.High, b.Low, b.Close, b.Volume)

/-- Claim C9: `calculate_statistics` never inspects, sorts or validates
dates — two series equal up to their dates produce identical results, and on
any non-empty series (ordered or not) the current and opening prices are the
closes of the positionally last and first rows. -/
theorem stats_positional_date_blind :
    ∀ s t : List PriceBar, s.map stripDate = t.map stripDate →
      calculate_statistics (some s) = calculate_statistics (some t) ∧
      (s ≠ [] → ∃ st, calculate_statistics (some s) = some st ∧
        some st.currentPrice = s.getLast?.map PriceBar.Close ∧
        some st.openingPrice = s.head?.map PriceBar.Close) := by
  intro s t h
  refine ⟨?_, stats_shape_of_ne_nil s⟩
  have hClose : s.map PriceBar.Close = t.map PriceBar.Close := by
    have := congrArg (List.map (fun x : ℚ × ℚ × ℚ × ℚ × ℚ => x.2.2.2.1)) h
    simpa [List.map_map, Function.comp, stripDate] using this
  have hHigh : s.map PriceBar.High = t.map PriceBar.High := by
    have := congrArg (List.map (fun x : ℚ × ℚ × ℚ × ℚ × ℚ => x.2.1)) h
    simpa [List.map_map, Function.comp, stripDate] using this
  have hLow : s.map PriceBar.Low = t.map PriceBar.Low := by
    have := congrArg (List.map (fun x : ℚ × ℚ × ℚ × ℚ × ℚ => x.2.2.1)) h
    simpa [List.map_map, Function.comp, stripDate] using this
  have hVol : s.map PriceBar.Volume = t.map PriceBar.Volume := by
    have := congrArg (List.map (fun x : ℚ × ℚ × ℚ × ℚ × ℚ => x.2.2.2.2)) h
    simpa [List.map_map, Function.comp, stripDate] using this
  have hlen : s.length = t.length := by
    simpa using congrArg List.length h
  have hEmpty : s.isEmpty = t.isEmpty := by
    cases s <;> cases t <;> simp_all
  simp only [calculate_statistics, hEmpty, hClose, hHigh, hLow, hVol]

/-- Witness for C9: an unsorted two-bar series (dates 5 then 3) against the
same bars dated 0, 0. -/
theorem stats_positional_date_blind_witness :
    (([{ bar1 with date := 5 }, { bar2 with date := 3 }] : List PriceBar).map stripDate =
      ([{ bar1 with date := 0 }, { bar2 with date := 0 }] : List PriceBar).map stripDate) ∧
    calculate_statistics (some [{ bar1 with date := 5 }, { bar2 with date := 3 }]) =
      calculate_statistics (some [{ bar1 with date := 0 }, { bar2 with date := 0 }]) ∧
    (([{ bar1 with date := 5 }, { bar2 with date := 3 }] : List PriceBar) ≠ [] →
      ∃ st, calculate_statistics (some [{ bar1 with date := 5 }, { bar2 with date := 3 }]) = some st ∧
        some st.currentPrice =
          ([{ bar1 with date := 5 }, { bar2 with date := 3 }] : List PriceBar).getLast?.map PriceBar.Close ∧
        some st.openingPrice =
          ([{ bar1 with date := 5 }, { bar2 with date := 3 }] : List PriceBar).head?.map PriceBar.Close) := by
  have hmap : (([{ bar1 with date := 5 }, { bar2 with date := 3 }] : List PriceBar).map stripDate =
      ([{ bar1 with date := 0 }, { bar2 with date := 0 }] : List PriceBar).map stripDate) := by
    simp [stripDate, bar1, bar2]
  exact ⟨hmap, stats_positional_date_blind _ _ hmap⟩

/-- Claim C8: each named preset fetches a window wider than its name — 14,
35, 95, 185 and 370 days respectively — always ending at the current
time. -/
theorem preset_ranges_wider :
    ∀ now : Int,
      preset_range "1 Week" now = (now - 14, now) ∧
      preset_range "1 Month" now = (now - 35, now) ∧
      preset_range "3 Months" now = (now - 95, now) ∧
      preset_range "6 Months" now = (now - 185, now) ∧
      preset_range "1 Year" now = (now - 370, now) := by
  intro now
  refine ⟨?_, ?_, ?_, ?_, ?_⟩
  · simp only [preset_range]
    rw [if_pos trivial]
  · simp only [preset_range]
    rw [if_neg (by decide), if_pos trivial]
  · simp only [preset_range]
    rw [if_neg (by decide), if_neg (by decide), if_pos trivial]
  · simp only [preset_range]
    rw [if_neg (by decide), if_neg (by decide), if_neg (by decide), if_pos trivial]
  · simp only [preset_range]
    rw [if_neg (by decide), if_neg (by decide), if_neg (by decide), if_neg (by decide)]

/-- Claim C7: the tab rendered at position `i` is a function of that
position's symbol and of the fetch result for that symbol alone, so one
symbol's failure cannot affect any other symbol's panel; a failed or empty
fetch surfaces as that symbol's error message, never as a crash. -/
theorem per_symbol_isolation :
    ∀ (fetch : String → Option (List PriceBar)) (symbols : List String) (i : Nat),
      (render_tabs fetch symbols)[i]? =
        (symbols[i]?).map (fun s => render_symbol_tab s (fetch s)) ∧
      (∀ s, render_symbol_tab s none = Panel.noDataError s) ∧
      (∀ s, render_symbol_tab s (some []) = Panel.noDataError s) := by
  intro fetch symbols i
  refine ⟨?_, fun s => rfl, fun s => rfl⟩
  simp [render_tabs]

/-! ### Scalar rendering lemmas for the delimited format -/

theorem digitChar_spec :
    ∀ d, d < 10 → ((digitChar d).toNat - 48 = d ∧
      48 ≤ (digitChar d).toNat ∧ (digitChar d).toNat ≤ 57) := by
  decide

theorem mem_renderNat_isDigit {n : Nat} {c : Char} (hc : c ∈ renderNat n) :
    48 ≤ c.toNat ∧ c.toNat ≤ 57 := by
  unfold renderNat at hc
  by_cases h : n = 0
  · rw [if_pos h] at hc
    rw [List.mem_singleton] at hc
    subst hc
    decide
  · rw [if_neg h] at hc
    rcases List.mem_map.mp hc with ⟨d, hd, rfl⟩
    have hd10 : d < 10 :=
      Nat.digits_lt_base (by norm_num) (List.mem_reverse.mp hd)
    exact (digitChar_spec d hd10).2

theorem renderNat_ne_nil (n : Nat) : renderNat n ≠ [] := by
  unfold renderNat
  by_cases h : n = 0
  · simp [h]
  · simp [h, Nat.digits_ne_nil_iff_ne_zero.mpr h]

theorem parseNat_renderNat (n : Nat) : parseNatChars (renderNat n) = n := by
  unfold renderNat parseNatChars
  by_cases h : n = 0
  · rw [if_pos h, h]
    decide
  · rw [if_neg h]
    have hmap : ((Nat.digits 10 n).reverse.map digitChar).map (fun c => c.toNat - 48) =
        (Nat.digits 10 n).reverse := by
      rw [List.map_map]
      have hpt : ∀ d ∈ (Nat.digits 10 n).reverse,
          ((fun c : Char => c.toNat - 48) ∘ digitChar) d = id d := by
        intro d hd
        have hd10 : d < 10 :=
          Nat.digits_lt_base (by norm_num) (List.mem_reverse.mp hd)
        exact (digitChar_spec d hd10).1
      rw [List.map_congr_left hpt, List.map_id]
    rw [hmap, List.reverse_reverse, Nat.ofDigits_digits]

theorem mem_renderInt {i : Int} {c : Char} (hc : c ∈ renderInt i) :
    c = '-' ∨ (48 ≤ c.toNat ∧ c.toNat ≤ 57) := by
  unfold renderInt at hc
  by_cases h : i < 0
  · rw [if_pos h] at hc
    rcases List.mem_cons.mp hc with h' | h'
    · exact Or.inl h'
    · exact Or.inr (mem_renderNat_isDigit h')
  · rw [if_neg h] at hc
    exact Or.inr (mem_renderNat_isDigit hc)

theorem parseInt_renderInt (i : Int) : parseIntChars (renderInt i) = i := by
  unfold renderInt
  by_cases h : i < 0
  · rw [if_pos h]
    have hneg : parseIntChars ('-' :: renderNat i.natAbs) =
        -(parseNatChars (renderNat i.natAbs) : Int) := by
      simp [parseIntChars]
    rw [hneg, parseNat_renderNat]
    omega
  · rw [if_neg h]
    obtain ⟨c, rest, hcr⟩ : ∃ c rest, renderNat i.natAbs = c :: rest := by
      cases hrn : renderNat i.natAbs with
      | nil => exact absurd hrn (renderNat_ne_nil _)
      | cons c rest => exact ⟨c, rest, rfl⟩
    have hcne : c ≠ '-' := by
      have hcmem : c ∈ renderNat i.natAbs := by
        rw [hcr]
        exact List.mem_cons_self _ _
      have hdig := mem_renderNat_isDigit hcmem
      intro he
      subst he
      revert hdig
      decide
    rw [hcr]
    simp only [parseIntChars, if_neg hcne]
    rw [← hcr, parseNat_renderNat]
    omega

theorem mem_renderRat {q : ℚ} {c : Char} (hc : c ∈ renderRat q) :
    c = '-' ∨ c = '/' ∨ (48 ≤ c.toNat ∧ c.toNat ≤ 57) := by
  unfold renderRat at hc
  rcases List.mem_append.mp hc with h | h
  · rcases mem_renderInt h with h' | h'
    · exact Or.inl h'
    · exact Or.inr (Or.inr h')
  · rcases List.mem_cons.mp h with h' | h'
    · exact Or.inr (Or.inl h')
    · exact Or.inr (Or.inr (mem_renderNat_isDigit h'))

theorem intercalate_pair (s a b : List Char) : List.intercalate s [a, b] = a ++ s ++ b := by
  simp [List.intercalate, List.intersperse]

theorem intercalate_cons_cons' (s a b : List Char) (t : List (List Char)) :
    List.intercalate s (a :: b :: t) = a ++ s ++ List.intercalate s (b :: t) := by
  simp [List.intercalate, List.intersperse]

theorem mem_intercalate_single {c x : Char} {ls : List (List Char)}
    (hx : x ∈ List.intercalate [c] ls) : x = c ∨ ∃ l ∈ ls, x ∈ l := by
  induction ls with
  | nil => simp [List.intercalate] at hx
  | cons a t ih =>
    cases t with
    | nil =>
      simp only [List.intercalate, List.intersperse, List.flatten, List.append_nil] at hx
      exact Or.inr ⟨a, by simp, by simpa using hx⟩
    | cons b t' =>
      rw [intercalate_cons_cons'] at hx
      rcases List.mem_append.mp hx with h | h
      · rcases List.mem_append.mp h with h' | h'
        · exact Or.inr ⟨a, by simp, h'⟩
        · exact Or.inl (by simpa using h')
      · rcases ih h with h' | ⟨l, hl, hxl⟩
        · exact Or.inl h'
        · exact Or.inr ⟨l, List.mem_cons_of_mem a hl, hxl⟩

theorem parseRat_renderRat (q : ℚ) : parseRatChars (renderRat q) = some q := by
  have hx : ∀ l ∈ [renderInt q.num, renderNat q.den], '/' ∉ l := by
    intro l hl hsl
    rcases List.mem_cons.mp hl with rfl | hl'
    · rcases mem_renderInt hsl with h | h
      · exact absurd h (by decide)
      · revert h
        decide
    · rw [List.mem_singleton] at hl'
      subst hl'
      have := mem_renderNat_isDigit hsl
      revert this
      decide
  have hsplit : (renderRat q).splitOn '/' = [renderInt q.num, renderNat q.den] := by
    have hs := List.splitOn_intercalate [renderInt q.num, renderNat q.den] '/' hx (by simp)
    rw [intercalate_pair] at hs
    simpa [renderRat] using hs
  unfold parseRatChars
  rw [hsplit]
  simp only [parseInt_renderInt, parseNat_renderNat]
  rw [Rat.num_div_den]

/-! ### Row and file level round-trip -/

theorem parseRow_barCells (sym : String) (b : PriceBar) :
    parseRow (barCells sym b) = some (sym, b) := by
  cases sym with
  | mk data =>
    cases b with
    | mk date o h l c v =>
      simp [parseRow, barCells, parseRat_renderRat, parseNat_renderNat]

theorem parseRows_map (l : List (String × PriceBar)) :
    parseRows (l.map (fun p => barCells p.1 p.2)) = some l := by
  induction l with
  | nil => rfl
  | cons p t ih =>
    rw [List.map_cons, parseRows, parseRow_barCells, ih]

/-- The cells of any data row contain neither separator character. -/
theorem barCells_no_sep (sym : String) (b : PriceBar)
    (hsym : ',' ∉ sym.data ∧ '\n' ∉ sym.data) :
    ∀ cell ∈ barCells sym b, ',' ∉ cell ∧ '\n' ∉ cell := by
  intro cell hcell
  have hnat : ∀ n : Nat, ',' ∉ renderNat n ∧ '\n' ∉ renderNat n := by
    intro n
    constructor <;> intro hc <;> have := mem_renderNat_isDigit hc <;> revert this <;> decide
  have hrat : ∀ q : ℚ, ',' ∉ renderRat q ∧ '\n' ∉ renderRat q := by
    intro q
    constructor <;> intro hc <;> rcases mem_renderRat hc with h | h | h
    · exact absurd h (by decide)
    · exact absurd h (by decide)
    · revert h; decide
    · exact absurd h (by decide)
    · exact absurd h (by decide)
    · revert h; decide
  simp only [barCells, List.mem_cons, List.not_mem_nil, or_false] at hcell
  rcases hcell with rfl | rfl | rfl | rfl | rfl | rfl | rfl
  · exact hnat _
  · exact hrat _
  · exact hrat _
  · exact hrat _
  · exact hrat _
  · exact hrat _
  · exact hsym

/-- Claim C6: exporting the accumulated data to the delimited format and
re-parsing the exported text reproduces every bar of every stored symbol
exactly, provided no symbol name contains a separator character (true of
the dashboard's fixed ticker allow-list). -/
theorem csv_round_trip (ad : List (String × List PriceBar))
    (hsym : ∀ p ∈ ad, ',' ∉ p.1.data ∧ '\n' ∉ p.1.data) :
    from_csv (to_csv ad) = some (combined_rows ad) := by
  have hsym' : ∀ p ∈ combined_rows ad, ',' ∉ p.1.data ∧ '\n' ∉ p.1.data := by
    intro p hp
    unfold combined_rows at hp
    rcases List.mem_flatten.mp hp with ⟨l, hl, hpl⟩
    rcases List.mem_map.mp hl with ⟨entry, hentry, rfl⟩
    rcases List.mem_map.mp hpl with ⟨b, hb, rfl⟩
    exact hsym entry hentry
  have hcells : ∀ r ∈ csvHeader :: (combined_rows ad).map (fun p => barCells p.1 p.2),
      (∀ cell ∈ r, ',' ∉ cell ∧ '\n' ∉ cell) ∧ r ≠ [] := by
    intro r hr
    rcases List.mem_cons.mp hr with rfl | hr
    · refine ⟨?_, by simp [csvHeader]⟩
      intro cell hcell
      simp only [csvHeader, List.mem_cons, List.not_mem_nil, or_false] at hcell
      rcases hcell with rfl | rfl | rfl | rfl | rfl | rfl | rfl <;> exact ⟨by decide, by decide⟩
    · rcases List.mem_map.mp hr with ⟨p, hp, rfl⟩
      exact ⟨barCells_no_sep p.1 p.2 (hsym' p hp), by simp [barCells]⟩
  have hnolines : ∀ line ∈ (csvHeader :: (combined_rows ad).map (fun p => barCells p.1 p.2)).map
      (List.intercalate [',']), '\n' ∉ line := by
    intro line hline hnl
    rcases List.mem_map.mp hline with ⟨r, hr, rfl⟩
    rcases mem_intercalate_single hnl with h | ⟨cell, hcell, hmem⟩
    · exact absurd h (by decide)
    · exact ((hcells r hr).1 cell hcell).2 hmem
  have hlines : (to_csv ad).splitOn '\n' =
      (csvHeader :: (combined_rows ad).map (fun p => barCells p.1 p.2)).map
        (List.intercalate [',']) := by
    unfold to_csv
    exact List.splitOn_intercalate _ '\n' hnolines (by simp)
  have hrowsplit : ∀ r ∈ csvHeader :: (combined_rows ad).map (fun p => barCells p.1 p.2),
      (List.intercalate [','] r).splitOn ',' = r := by
    intro r hr
    refine List.splitOn_intercalate r ',' ?_ (hcells r hr).2
    intro cell hcell
    exact ((hcells r hr).1 cell hcell).1
  unfold from_csv
  rw [hlines, List.map_cons]
  show parseRows ((((combined_rows ad).map (fun p => barCells p.1 p.2)).map
    (List.intercalate [','])).map (fun line => line.splitOn ',')) = some (combined_rows ad)
  rw [List.map_map]
  have hpt : ∀ r ∈ (combined_rows ad).map (fun p => barCells p.1 p.2),
      ((fun line : List Char => line.splitOn ',') ∘ List.intercalate [',']) r = id r := by
    intro r hr
    exact hrowsplit r (List.mem_cons_of_mem _ hr)
  rw [List.map_congr_left hpt, List.map_id]
  exact parseRows_map (combined_rows ad)

/-- Witness for C6: a one-symbol export of the spec's two-bar scenario. -/
theorem csv_round_trip_witness :
    (∀ p ∈ ([("AAPL", [bar1, bar2])] : List (String × List PriceBar)),
      ',' ∉ p.1.data ∧ '\n' ∉ p.1.data) ∧
    from_csv (to_csv [("AAPL", [bar1, bar2])]) =
      some (combined_rows [("AAPL", [bar1, bar2])]) :=
  ⟨by decide, csv_round_trip [("AAPL", [bar1, bar2])] (by decide)⟩

/-- Membership in the accumulated `all_data`: a symbol-series pair is stored
exactly when that symbol was selected and its fetch returned that non-empty
series. -/
theorem mem_all_data (fetch : String → Option (List PriceBar)) (symbols : List String)
    (s : String) (d : List PriceBar) :
    (s, d) ∈ all_data fetch symbols ↔ s ∈ symbols ∧ fetch s = some d ∧ d ≠ [] := by
  unfold all_data
  rw [List.mem_filterMap]
  constructor
  · rintro ⟨x, hx, hfx⟩
    cases hfetch : fetch x with
    | none =>
      simp only [hfetch] at hfx
      exact absurd hfx (by simp)
    | some d' =>
      simp only [hfetch] at hfx
      by_cases hd : d'.isEmpty
      · rw [if_pos hd] at hfx
        simp at hfx
      · rw [if_neg hd] at hfx
        injection hfx with hfx
        rw [Prod.mk.injEq] at hfx
        obtain ⟨rfl, rfl⟩ := hfx
        exact ⟨hx, hfetch, by simpa [List.isEmpty_iff] using hd⟩
  · rintro ⟨hs, hfetch, hd⟩
    refine ⟨s, hs, ?_⟩
    simp only [hfetch]
    rw [if_neg (by simpa [List.isEmpty_iff] using hd)]

/-- A symbol appears in the combined export rows exactly when it is stored
with a non-empty series. -/
theorem mem_fst_combined (ad : List (String × List PriceBar)) (s : String) :
    s ∈ (combined_rows ad).map Prod.fst ↔ ∃ d, (s, d) ∈ ad ∧ d ≠ [] := by
  unfold combined_rows
  constructor
  · intro h
    rcases List.mem_map.mp h with ⟨p, hp, rfl⟩
    rcases List.mem_flatten.mp hp with ⟨l, hl, hpl⟩
    rcases List.mem_map.mp hl with ⟨entry, hentry, rfl⟩
    rcases List.mem_map.mp hpl with ⟨b, hb, rfl⟩
    exact ⟨entry.2, by simpa using hentry, List.ne_nil_of_mem hb⟩
  · rintro ⟨d, hd, hne⟩
    rcases List.exists_mem_of_ne_nil d hne with ⟨b, hb⟩
    refine List.mem_map.mpr ⟨(s, b), ?_, rfl⟩
    exact List.mem_flatten.mpr
      ⟨d.map (fun b => (s, b)), List.mem_map.mpr ⟨(s, d), hd, rfl⟩, List.mem_map.mpr ⟨b, hb, rfl⟩⟩

/-- Claim C10: the export artifact contains exactly the symbols whose fetch
succeeded with non-empty data — such symbols appear in `all_data` and in the
combined CSV rows, failed or empty symbols are silently absent — and the
export controls are offered exactly when at least one symbol succeeded. -/
theorem export_exactly_successes :
    ∀ (fetch : String → Option (List PriceBar)) (symbols : List String) (s : String),
      (s ∈ (combined_rows (all_data fetch symbols)).map Prod.fst ↔
        s ∈ symbols ∧ ∃ d, fetch s = some d ∧ d ≠ []) ∧
      ((∃ d, (s, d) ∈ all_data fetch symbols) ↔
        s ∈ symbols ∧ ∃ d, fetch s = some d ∧ d ≠ []) ∧
      (export_offered fetch symbols = true ↔
        ∃ sym ∈ symbols, ∃ d, fetch sym = some d ∧ d ≠ []) := by
  intro fetch symbols s
  have hentry : ∀ (s' : String) (d : List PriceBar),
      (s', d) ∈ all_data fetch symbols ↔ s' ∈ symbols ∧ fetch s' = some d ∧ d ≠ [] :=
    fun s' d => mem_all_data fetch symbols s' d
  refine ⟨?_, ?_, ?_⟩
  · rw [mem_fst_combined]
    constructor
    · rintro ⟨d, hd, hne⟩
      rcases (hentry s d).mp hd with ⟨hs, hfetch, _⟩
      exact ⟨hs, d, hfetch, hne⟩
    · rintro ⟨hs, d, hfetch, hne⟩
      exact ⟨d, (hentry s d).mpr ⟨hs, hfetch, hne⟩, hne⟩
  · constructor
    · rintro ⟨d, hd⟩
      rcases (hentry s d).mp hd with ⟨hs, hfetch, hne⟩
      exact ⟨hs, d, hfetch, hne⟩
    · rintro ⟨hs, d, hfetch, hne⟩
      exact ⟨d, (hentry s d).mpr ⟨hs, hfetch, hne⟩⟩
  · unfold export_offered
    rw [Bool.not_eq_eq_eq_not, Bool.not_true, List.isEmpty_eq_false_iff_exists_mem]
    constructor
    · rintro ⟨p, hp⟩
      rcases (hentry p.1 p.2).mp (by simpa using hp) with ⟨hs, hfetch, hne⟩
      exact ⟨p.1, hs, p.2, hfetch, hne⟩
    · rintro ⟨sym, hs, d, hfetch, hne⟩
      exact ⟨(sym, d), (hentry sym d).mpr ⟨hs, hfetch, hne⟩⟩

end StockDashboard
